import Mathlib

/-!
Verification of a 2D Jacobi stencil kernel (`jacobi2d_hls`) and its
host-side testbench driver.

The C kernel operates on flat row-major buffers of `float`; we model a
buffer as a total function `Int → ℚ`, with float values embedded as exact
rationals. The two nested `for` loops of the kernel are modelled by
structural recursion on the (nonnegative) trip counts `N.toNat` and
`M.toNat`, each iteration updating the output buffer at the linear index
`i*M + j` exactly as the source does.
-/

namespace Jacobi

/-- Value written by the kernel's loop body at cell `(i, j)`:
border cells (`i = 0 ∨ j = 0 ∨ i = N-1 ∨ j = M-1`) copy the input through;
interior cells get `0.25f * (up + down + left + right)` with the source's
left-associated summation order. -/
def cellOut (inp : Int → ℚ) (N M i j : Int) : ℚ :=
  if i = 0 ∨ j = 0 ∨ i = N - 1 ∨ j = M - 1 then
    inp (i * M + j)
  else
    let up := inp ((i - 1) * M + j)
    let down := inp ((i + 1) * M + j)
    let left := inp (i * M + (j - 1))
    let right := inp (i * M + (j + 1))
    (1 / 4 : ℚ) * (up + down + left + right)

/-- One iteration of the kernel's inner loop body: write `cellOut` at
linear index `i*M + j` of the output buffer. -/
def updCell (inp : Int → ℚ) (N M i j : Int) (out : Int → ℚ) : Int → ℚ :=
  Function.update out (i * M + j) (cellOut inp N M i j)

/-- The kernel's inner `Col_Loop`: runs `j = 0, 1, ..., jn-1` in order. -/
def colLoop (inp : Int → ℚ) (N M i : Int) : Nat → (Int → ℚ) → Int → ℚ
  | 0, out => out
  | jn + 1, out => updCell inp N M i (jn : Int) (colLoop inp N M i jn out)

/-- The kernel's outer `Row_Loop`: runs `i = 0, 1, ..., inn-1` in order,
each row executing the full inner column loop of `M.toNat` steps. -/
def rowLoop (inp : Int → ℚ) (N M : Int) : Nat → (Int → ℚ) → Int → ℚ
  | 0, out => out
  | inn + 1, out => colLoop inp N M (inn : Int) M.toNat (rowLoop inp N M inn out)

/-- The kernel `jacobi2d_hls(in, out, N, M)`: one Jacobi iteration over the
`N × M` grid. The loops `for (i = 0; i < N; i++)` and
`for (j = 0; j < M; j++)` run `N.toNat` resp. `M.toNat` times (zero times
for non-positive bounds). The result is the final contents of the output
buffer. -/
def jacobi2d_hls (inp out : Int → ℚ) (N M : Int) : Int → ℚ :=
  rowLoop inp N M N.toNat out

/- Testbench driver (`tb_jacobi_hls.cpp`). -/

/-- The loop of `init_grid`: `for (j = 0; j < M; ++j) a[j] = 1.0f`. -/
def fillRow0 : Nat → (Int → ℚ) → Int → ℚ
  | 0, a => a
  | jn + 1, a => Function.update (fillRow0 jn a) (jn : Int) 1

/-- `init_grid`: fill the whole buffer with `0.0f`, then set the first `M`
entries (row 0) to `1.0f`. -/
def init_grid (M : Int) : Int → ℚ :=
  fillRow0 M.toNat (fun _ => 0)

/-- Argument parsing of `main`; the list holds the `atoi` values of the
positional arguments `argv[1..]`, so `argc = args.length + 1`. Returns
`(N, M, iters)` with defaults `N = 1024, M = 1024, iters = 10`. -/
def parseArgs (args : List Int) : Int × Int × Int :=
  let N : Int := 1024
  let M : Int := 1024
  let iters : Int := 10
  let NM : Int × Int :=
    if args.length + 1 ≥ 3 then (args.getD 0 N, args.getD 1 M) else (N, M)
  let iters : Int :=
    if args.length + 1 ≥ 4 then args.getD 2 iters else iters
  (NM.1, NM.2, iters)

/-- The driver's iteration loop: `for (t = 0; t < iters; ++t)` calls
`jacobi2d_hls(a, b, N, M)` then swaps the buffers `a` and `b`. The state
is the pair `(a, b)`. -/
def driverLoop (N M : Int) : Nat → (Int → ℚ) × (Int → ℚ) → (Int → ℚ) × (Int → ℚ)
  | 0, ab => ab
  | t + 1, ab =>
    let ab' := driverLoop N M t ab
    (jacobi2d_hls ab'.1 ab'.2 N M, ab'.1)

/-- The `a` buffer after the driver's loop: `a` starts as `init_grid` and
`b` as a copy of `a` (`b = a;`), then the loop runs `T` times. -/
def gridAfter (N M : Int) (T : Nat) : Int → ℚ :=
  (driverLoop N M T (init_grid M, init_grid M)).1

/-- Partial sums of the checksum loop: `sumLoop g n` is the accumulator
after adding `g 0, g 1, ..., g (n-1)` left to right starting from `0`. -/
def sumLoop (g : Int → ℚ) : Nat → ℚ
  | 0 => 0
  | n + 1 => sumLoop g n + g (n : Int)

/-- The driver's checksum: `for (i = 0; i < N*M; ++i) sum += a[i]` with a
left-to-right accumulator starting at `0.0`. -/
def sumGrid (N M : Int) (g : Int → ℚ) : ℚ :=
  sumLoop g (N * M).toNat

/-- Digits of `n` left-padded with zeros to width 6, modelling the
fractional field of `printf` format `%.6f`. -/
def pad6 (n : Nat) : String :=
  let s := toString n
  String.mk (List.replicate (6 - s.length) '0') ++ s

/-- Fixed-point rendering of a rational with six decimal digits, modelling
`printf("%.6f", x)`: round `x * 10^6` to the nearest integer, then print
integer part, a dot, and the six fractional digits. -/
def fmt6 (q : ℚ) : String :=
  let n : Int := round (q * 1000000)
  let sign := if n < 0 then "-" else ""
  let m := n.natAbs
  sign ++ toString (m / 1000000) ++ "." ++ pad6 (m % 1000000)

/-- The single line printed by the driver:
`printf("HLS csim done: N=%d M=%d iters=%d checksum=%.6f\n", ...)` with
the checksum computed from the `a` buffer after `iters` loop iterations. -/
def driverLine (N M iters : Int) : String :=
  "HLS csim done: N=" ++ toString N ++ " M=" ++ toString M ++
    " iters=" ++ toString iters ++ " checksum=" ++
    fmt6 (sumGrid N M (gridAfter N M iters.toNat)) ++ "\n"

/-- The driver `main`: parse arguments, run the loop, print the line. -/
def main (args : List Int) : String :=
  let p := parseArgs args
  driverLine p.1 p.2.1 p.2.2

/-- Specification-side single step: one full Jacobi update read off a
single grid (used to state that the driver's double-buffering realizes
plain functional iteration of the stencil on in-range cells). -/
def specStep (N M : Int) (g : Int → ℚ) : Int → ℚ :=
  jacobi2d_hls g g N M

/- Index expressions of the kernel and of `init_grid`, for the bounds
claims. -/

/-- Linear index written by the kernel's loop body at cell `(i, j)`. -/
def cellWriteIdx (M i j : Int) : Int := i * M + j

/-- Linear indices read by the kernel's loop body at cell `(i, j)`: the
cell itself on the border, the four orthogonal neighbors in the
interior. -/
def cellReadIdxs (N M i j : Int) : List Int :=
  if i = 0 ∨ j = 0 ∨ i = N - 1 ∨ j = M - 1 then
    [i * M + j]
  else
    [(i - 1) * M + j, (i + 1) * M + j, i * M + (j - 1), i * M + (j + 1)]

/-- Indices visited by `init_grid`'s row-0 loop after `n` iterations, in
loop order: `0, 1, ..., n-1`. -/
def initIdxLoop : Nat → List Int
  | 0 => []
  | jn + 1 => initIdxLoop jn ++ [(jn : Int)]

/-- Linear indices written by `init_grid`'s row-0 loop: `0, ..., M-1`. -/
def initWriteIdxs (M : Int) : List Int :=
  initIdxLoop M.toNat

/- Characterization lemmas: the loop nest writes each in-range cell once. -/

theorem idx_inj {M i j i' j' : Int} (hj0 : 0 ≤ j) (hjM : j < M)
    (hj0' : 0 ≤ j') (hjM' : j' < M) (h : i * M + j = i' * M + j') :
    i = i' ∧ j = j' := by
  rcases lt_trichotomy i i' with hlt | heq | hgt
  · exfalso
    have h1 : (i' - i) * M = j - j' := by ring_nf; linarith
    have h2 : (1 : ℤ) ≤ i' - i := by omega
    have h3 : M ≤ (i' - i) * M := le_mul_of_one_le_left (by omega) h2
    omega
  · constructor
    · exact heq
    · subst heq; omega
  · exfalso
    have h1 : (i - i') * M = j' - j := by ring_nf; linarith
    have h2 : (1 : ℤ) ≤ i - i' := by omega
    have h3 : M ≤ (i - i') * M := le_mul_of_one_le_left (by omega) h2
    omega

theorem colLoop_not_touched (inp : Int → ℚ) (N M i : Int) :
    ∀ (jn : Nat) (out : Int → ℚ) (k : Int),
      (∀ j' : Nat, j' < jn → k ≠ i * M + (j' : Int)) →
      colLoop inp N M i jn out k = out k := by
  intro jn
  induction jn with
  | zero => intro out k _; rfl
  | succ jn ih =>
    intro out k hk
    have hne : k ≠ i * M + (jn : Int) := hk jn (Nat.lt_succ_self jn)
    calc colLoop inp N M i (jn + 1) out k
        = colLoop inp N M i jn out k :=
          Function.update_noteq hne _ _
      _ = out k := ih out k (fun j' hj' => hk j' (Nat.lt_succ_of_lt hj'))

theorem colLoop_at (inp : Int → ℚ) (N M i : Int) :
    ∀ (jn : Nat) (out : Int → ℚ) (j : Int), 0 ≤ j → j < (jn : Int) →
      colLoop inp N M i jn out (i * M + j) = cellOut inp N M i j := by
  intro jn
  induction jn with
  | zero => intro out j hj0 hjn; exfalso; omega
  | succ jn ih =>
    intro out j hj0 hjn
    by_cases hcase : j = (jn : Int)
    · subst hcase
      exact Function.update_same _ _ _
    · have hne : i * M + j ≠ i * M + (jn : Int) := by
        intro h
        exact hcase (add_left_cancel h)
      calc colLoop inp N M i (jn + 1) out (i * M + j)
          = colLoop inp N M i jn out (i * M + j) :=
            Function.update_noteq hne _ _
        _ = cellOut inp N M i j := ih out j hj0 (by omega)

theorem rowLoop_not_touched (inp : Int → ℚ) (N M : Int) :
    ∀ (inn : Nat) (out : Int → ℚ) (k : Int),
      (∀ (i' j' : Nat), i' < inn → j' < M.toNat →
        k ≠ (i' : Int) * M + (j' : Int)) →
      rowLoop inp N M inn out k = out k := by
  intro inn
  induction inn with
  | zero => intro out k _; rfl
  | succ inn ih =>
    intro out k hk
    have h1 : colLoop inp N M (inn : Int) M.toNat (rowLoop inp N M inn out) k
        = rowLoop inp N M inn out k := by
      apply colLoop_not_touched
      intro j' hj'
      exact hk inn j' (Nat.lt_succ_self inn) hj'
    calc rowLoop inp N M (inn + 1) out k
        = rowLoop inp N M inn out k := h1
      _ = out k := ih out k (fun i' j' hi' hj' =>
          hk i' j' (Nat.lt_succ_of_lt hi') hj')

theorem rowLoop_at (inp : Int → ℚ) (N M : Int) :
    ∀ (inn : Nat) (out : Int → ℚ) (i j : Int),
      0 ≤ i → i < (inn : Int) → 0 ≤ j → j < (M.toNat : Int) →
      rowLoop inp N M inn out (i * M + j) = cellOut inp N M i j := by
  intro inn
  induction inn with
  | zero => intro out i j hi0 hin _ _; exfalso; omega
  | succ inn ih =>
    intro out i j hi0 hin hj0 hjM
    by_cases hcase : i = (inn : Int)
    · subst hcase
      exact colLoop_at inp N M _ M.toNat _ j hj0 hjM
    · have hilt : i < (inn : Int) := by omega
      have hnt : colLoop inp N M (inn : Int) M.toNat
          (rowLoop inp N M inn out) (i * M + j)
          = rowLoop inp N M inn out (i * M + j) := by
        apply colLoop_not_touched
        intro j' hj' heq
        have hMj' : (j' : Int) < M := by omega
        have hMj : j < M := by omega
        have := idx_inj hj0 hMj (Int.natCast_nonneg j') hMj' heq
        exact hcase this.1
      calc rowLoop inp N M (inn + 1) out (i * M + j)
          = rowLoop inp N M inn out (i * M + j) := hnt
        _ = cellOut inp N M i j := ih out i j hi0 hilt hj0 hjM

/-- Main characterization: for every in-range cell `(i, j)` of an `N × M`
grid, one kernel call sets the output at linear index `i*M + j` to
`cellOut`, regardless of the output buffer's prior contents. -/
theorem jacobi_cells (inp out : Int → ℚ) (N M i j : Int)
    (hi0 : 0 ≤ i) (hiN : i < N) (hj0 : 0 ≤ j) (hjM : j < M) :
    jacobi2d_hls inp out N M (i * M + j) = cellOut inp N M i j := by
  apply rowLoop_at
  · exact hi0
  · omega
  · exact hj0
  · omega

/- Supporting lemmas about the driver and index arithmetic. -/

theorem fillRow0_eq : ∀ (jn : Nat) (a : Int → ℚ) (k : Int),
    fillRow0 jn a k = if 0 ≤ k ∧ k < (jn : Int) then 1 else a k := by
  intro jn
  induction jn with
  | zero =>
    intro a k
    have h : ¬(0 ≤ k ∧ k < ((0 : Nat) : Int)) := by omega
    simp only [fillRow0, if_neg h]
  | succ jn ih =>
    intro a k
    by_cases hk : k = (jn : Int)
    · subst hk
      have h : 0 ≤ ((jn : Nat) : Int) ∧ ((jn : Nat) : Int) < ((jn + 1 : Nat) : Int) := by
        omega
      simp only [fillRow0, Function.update_same, if_pos h]
    · have h1 : fillRow0 (jn + 1) a k = fillRow0 jn a k :=
        Function.update_noteq hk _ _
      rw [h1, ih]
      by_cases h2 : 0 ≤ k ∧ k < (jn : Int)
      · rw [if_pos h2, if_pos (by omega)]
      · rw [if_neg h2, if_neg (by omega)]

theorem init_grid_eq (M : Int) (k : Int) :
    init_grid M k = if 0 ≤ k ∧ k < M ∧ 0 < M then 1 else 0 := by
  unfold init_grid
  rw [fillRow0_eq]
  by_cases h : 0 ≤ k ∧ k < (M.toNat : Int)
  · rw [if_pos h, if_pos (by omega)]
  · rw [if_neg h, if_neg (by omega)]

theorem idx_bounds {N M i j : Int} (hi0 : 0 ≤ i) (hiN : i < N)
    (hj0 : 0 ≤ j) (hjM : j < M) : 0 ≤ i * M + j ∧ i * M + j < N * M := by
  have hM : 0 < M := by omega
  have h2 : i * M ≤ (N - 1) * M := mul_le_mul_of_nonneg_right (by omega) hM.le
  have h3 : (N - 1) * M = N * M - M := by ring
  constructor
  · exact add_nonneg (mul_nonneg hi0 hM.le) hj0
  · linarith

theorem idx_decomp {N M k : Int} (hM : 1 ≤ M) (hk0 : 0 ≤ k) (hkNM : k < N * M) :
    k = (k / M) * M + k % M ∧ 0 ≤ k / M ∧ k / M < N ∧ 0 ≤ k % M ∧ k % M < M := by
  have hMpos : (0 : Int) < M := by omega
  refine ⟨?_, Int.ediv_nonneg hk0 hMpos.le, ?_, Int.emod_nonneg k (by omega),
    Int.emod_lt_of_pos k hMpos⟩
  · have := Int.ediv_add_emod k M
    linarith
  · exact (Int.ediv_lt_iff_lt_mul hMpos).mpr hkNM

/-- The value computed for a cell depends only on the input grid's in-range
cells: the cell itself on the border, the four orthogonal neighbors in the
interior (all in range for interior cells). -/
theorem cellOut_congr (inp1 inp2 : Int → ℚ) (N M i j : Int)
    (hag : ∀ i' j' : Int, 0 ≤ i' → i' < N → 0 ≤ j' → j' < M →
      inp1 (i' * M + j') = inp2 (i' * M + j'))
    (hi0 : 0 ≤ i) (hiN : i < N) (hj0 : 0 ≤ j) (hjM : j < M) :
    cellOut inp1 N M i j = cellOut inp2 N M i j := by
  unfold cellOut
  by_cases hb : i = 0 ∨ j = 0 ∨ i = N - 1 ∨ j = M - 1
  · rw [if_pos hb, if_pos hb, hag i j hi0 hiN hj0 hjM]
  · rw [if_neg hb, if_neg hb]
    push_neg at hb
    rw [hag (i - 1) j (by omega) (by omega) hj0 hjM,
      hag (i + 1) j (by omega) (by omega) hj0 hjM,
      hag i (j - 1) hi0 hiN (by omega) (by omega),
      hag i (j + 1) hi0 hiN (by omega) (by omega)]

theorem rowLoop_of_M_nonpos (inp : Int → ℚ) (N M : Int) (hM : M ≤ 0) :
    ∀ (inn : Nat) (out : Int → ℚ), rowLoop inp N M inn out = out := by
  intro inn
  induction inn with
  | zero => intro out; rfl
  | succ inn ih =>
    intro out
    have h0 : M.toNat = 0 := Int.toNat_of_nonpos hM
    show colLoop inp N M (inn : Int) M.toNat (rowLoop inp N M inn out) = out
    rw [h0]
    show rowLoop inp N M inn out = out
    exact ih out

/-- The driver's double-buffered loop computes, on in-range cells, the
plain functional iterate of the stencil step on the initial grid. -/
theorem gridAfter_eq_iter (N M : Int) :
    ∀ (T : Nat) (i j : Int), 0 ≤ i → i < N → 0 ≤ j → j < M →
      gridAfter N M T (i * M + j) = (specStep N M)^[T] (init_grid M) (i * M + j) := by
  intro T
  induction T with
  | zero => intro i j _ _ _ _; rfl
  | succ T ih =>
    intro i j hi0 hiN hj0 hjM
    have hstep : gridAfter N M (T + 1) =
        jacobi2d_hls (gridAfter N M T) (driverLoop N M T (init_grid M, init_grid M)).2 N M := rfl
    rw [hstep, jacobi_cells _ _ N M i j hi0 hiN hj0 hjM,
      Function.iterate_succ_apply']
    have hspec : specStep N M ((specStep N M)^[T] (init_grid M)) (i * M + j)
        = cellOut ((specStep N M)^[T] (init_grid M)) N M i j :=
      jacobi_cells _ _ N M i j hi0 hiN hj0 hjM
    rw [hspec]
    exact cellOut_congr _ _ N M i j (fun i' j' h1 h2 h3 h4 => ih i' j' h1 h2 h3 h4)
      hi0 hiN hj0 hjM

theorem sumLoop_congr (g1 g2 : Int → ℚ) :
    ∀ n : Nat, (∀ k : Nat, k < n → g1 (k : Int) = g2 (k : Int)) →
      sumLoop g1 n = sumLoop g2 n := by
  intro n
  induction n with
  | zero => intro _; rfl
  | succ n ih =>
    intro h
    show sumLoop g1 n + g1 (n : Int) = sumLoop g2 n + g2 (n : Int)
    rw [ih (fun k hk => h k (Nat.lt_succ_of_lt hk)), h n (Nat.lt_succ_self n)]

theorem initIdxLoop_bounds : ∀ (n : Nat) (k : Int),
    k ∈ initIdxLoop n → 0 ≤ k ∧ k < (n : Int) := by
  intro n
  induction n with
  | zero => intro k hk; simp [initIdxLoop] at hk
  | succ n ih =>
    intro k hk
    simp only [initIdxLoop, List.mem_append, List.mem_singleton] at hk
    rcases hk with hk | hk
    · have := ih k hk
      omega
    · subst hk
      omega

/-- Helper: restate `jacobi_cells` with the linear index given as a
separate argument, convenient for concrete cells. -/
theorem jacobi_at (inp out : Int → ℚ) (N M i j k : Int)
    (hi0 : 0 ≤ i) (hiN : i < N) (hj0 : 0 ≤ j) (hjM : j < M)
    (hk : k = i * M + j) :
    jacobi2d_hls inp out N M k = cellOut inp N M i j := by
  subst hk
  exact jacobi_cells inp out N M i j hi0 hiN hj0 hjM

theorem sumGrid_congr (N M : Int) (g1 g2 : Int → ℚ)
    (h : ∀ k : Int, 0 ≤ k → k < N * M → g1 k = g2 k) :
    sumGrid N M g1 = sumGrid N M g2 := by
  unfold sumGrid
  apply sumLoop_congr
  intro k hk
  exact h (k : Int) (by omega) (by omega)

/- Claim theorems. -/

/-- Claim C1: for every grid and every interior cell `(i, j)`
(`0 < i < N-1`, `0 < j < M-1`), one kernel call writes
`out[i,j] = 0.25 * (in[i-1,j] + in[i+1,j] + in[i,j-1] + in[i,j+1])`,
reading neighbor values from the input grid only (the output buffer's
prior contents are universally quantified and do not appear). -/
theorem claim1_interior_average (inp out : Int → ℚ) (N M i j : Int)
    (hi0 : 0 < i) (hiN : i < N - 1) (hj0 : 0 < j) (hjM : j < M - 1) :
    jacobi2d_hls inp out N M (i * M + j) =
      0.25 * (inp ((i - 1) * M + j) + inp ((i + 1) * M + j) +
        inp (i * M + (j - 1)) + inp (i * M + (j + 1))) := by
  rw [jacobi_cells inp out N M i j (by omega) (by omega) (by omega) (by omega)]
  simp only [cellOut]
  rw [if_neg (by omega)]
  norm_num

theorem claim1_witness :
    (0 : Int) < 1 ∧ (1 : Int) < 3 - 1 ∧
    jacobi2d_hls (fun k => (k : ℚ)) (fun _ => 0) 3 3 (1 * 3 + 1) =
      0.25 * (((((1 : Int) - 1) * 3 + 1 : Int) : ℚ) + ((((1 : Int) + 1) * 3 + 1 : Int) : ℚ) +
        (((1 : Int) * 3 + (1 - 1) : Int) : ℚ) + (((1 : Int) * 3 + (1 + 1) : Int) : ℚ)) :=
  ⟨by norm_num, by norm_num,
    claim1_interior_average (fun k => (k : ℚ)) (fun _ => 0) 3 3 1 1
      (by norm_num) (by norm_num) (by norm_num) (by norm_num)⟩

/-- Claim C2: for every grid of size `N × M` and every border cell
(`i = 0`, `i = N-1`, `j = 0`, or `j = M-1`), one kernel call copies the
input cell through unchanged: `out[i,j] = in[i,j]`. -/
theorem claim2_border_copy (inp out : Int → ℚ) (N M i j : Int)
    (hi0 : 0 ≤ i) (hiN : i < N) (hj0 : 0 ≤ j) (hjM : j < M)
    (hb : i = 0 ∨ i = N - 1 ∨ j = 0 ∨ j = M - 1) :
    jacobi2d_hls inp out N M (i * M + j) = inp (i * M + j) := by
  rw [jacobi_cells inp out N M i j hi0 hiN hj0 hjM]
  simp only [cellOut]
  rw [if_pos (by tauto)]

theorem claim2_witness :
    (0 : Int) ≤ 0 ∧
    jacobi2d_hls (fun k => (k : ℚ)) (fun _ => 0) 3 3 (0 * 3 + 1) =
      (((0 : Int) * 3 + 1 : Int) : ℚ) :=
  ⟨le_refl 0,
    claim2_border_copy (fun k => (k : ℚ)) (fun _ => 0) 3 3 0 1
      (by norm_num) (by norm_num) (by norm_num) (by norm_num) (Or.inl rfl)⟩

/-- Claim C4: when `N ≤ 2` or `M ≤ 2`, every cell of the grid is a border
cell, so one kernel call reproduces the input grid cell for cell. -/
theorem claim4_degenerate_identity (inp out : Int → ℚ) (N M i j : Int)
    (hdeg : N ≤ 2 ∨ M ≤ 2)
    (hi0 : 0 ≤ i) (hiN : i < N) (hj0 : 0 ≤ j) (hjM : j < M) :
    jacobi2d_hls inp out N M (i * M + j) = inp (i * M + j) := by
  rw [jacobi_cells inp out N M i j hi0 hiN hj0 hjM]
  simp only [cellOut]
  rw [if_pos (by omega)]

theorem claim4_witness :
    ((2 : Int) ≤ 2 ∨ (5 : Int) ≤ 2) ∧
    jacobi2d_hls (fun k => (k : ℚ)) (fun _ => 0) 2 5 (1 * 5 + 2) =
      (((1 : Int) * 5 + 2 : Int) : ℚ) :=
  ⟨Or.inl (le_refl 2),
    claim4_degenerate_identity (fun k => (k : ℚ)) (fun _ => 0) 2 5 1 2
      (Or.inl (le_refl 2)) (by norm_num) (by norm_num) (by norm_num) (by norm_num)⟩

/-- Claim C5: if every in-range cell of the input grid holds the same
constant `c`, one kernel call yields a grid that is still entirely `c`
(borders by copy-through, interiors because the left-associated sum
`0.25 * (((c + c) + c) + c)` equals `c` exactly). -/
theorem claim5_constant_fixed_point (inp out : Int → ℚ) (N M : Int) (c : ℚ)
    (hc : ∀ i j : Int, 0 ≤ i → i < N → 0 ≤ j → j < M → inp (i * M + j) = c)
    (i j : Int) (hi0 : 0 ≤ i) (hiN : i < N) (hj0 : 0 ≤ j) (hjM : j < M) :
    jacobi2d_hls inp out N M (i * M + j) = c := by
  rw [jacobi_cells inp out N M i j hi0 hiN hj0 hjM]
  simp only [cellOut]
  by_cases hb : i = 0 ∨ j = 0 ∨ i = N - 1 ∨ j = M - 1
  · rw [if_pos hb, hc i j hi0 hiN hj0 hjM]
  · rw [if_neg hb]
    push_neg at hb
    rw [hc (i - 1) j (by omega) (by omega) hj0 hjM,
      hc (i + 1) j (by omega) (by omega) hj0 hjM,
      hc i (j - 1) hi0 hiN (by omega) (by omega),
      hc i (j + 1) hi0 hiN (by omega) (by omega)]
    ring

theorem claim5_witness :
    jacobi2d_hls (fun _ => 7) (fun _ => 0) 3 3 (1 * 3 + 1) = 7 :=
  claim5_constant_fixed_point (fun _ => 7) (fun _ => 0) 3 3 7
    (fun _ _ _ _ _ _ => rfl) 1 1 (by norm_num) (by norm_num) (by norm_num) (by norm_num)

/-- Claim C9: for `N ≤ 0` or `M ≤ 0` the kernel performs no writes: both
loop bounds are checked before any access, so the output buffer is
returned entirely unchanged at every index. -/
theorem claim9_nonpositive_noop (inp out : Int → ℚ) (N M : Int)
    (h : N ≤ 0 ∨ M ≤ 0) (k : Int) :
    jacobi2d_hls inp out N M k = out k := by
  rcases h with hN | hM
  · unfold jacobi2d_hls
    rw [Int.toNat_of_nonpos hN]
    rfl
  · unfold jacobi2d_hls
    rw [rowLoop_of_M_nonpos inp N M hM N.toNat out]

theorem claim9_witness :
    ((-1 : Int) ≤ 0 ∨ (5 : Int) ≤ 0) ∧
    jacobi2d_hls (fun _ => 3) (fun k => (k : ℚ)) (-1) 5 2 = ((2 : Int) : ℚ) :=
  ⟨Or.inl (by norm_num),
    claim9_nonpositive_noop (fun _ => 3) (fun k => (k : ℚ)) (-1) 5
      (Or.inl (by norm_num)) 2⟩

/-- Claim C3: for `N, M ≥ 1` and any iteration count `T`, the driver
prints exactly the single line
`HLS csim done: N=<N> M=<M> iters=<T> checksum=<S>` with `S` formatted to
six decimal digits, where `S` is the sum of all `N*M` cells of the grid
obtained by applying the stencil step `T` times to the initial grid
(row 0 all ones, zero elsewhere); the driver's double-buffer alternation
realizes exactly the functional iterate `(specStep N M)^[T]`. -/
theorem claim3_driver_line (N M : Int) (hN : 1 ≤ N) (hM : 1 ≤ M) (T : Nat) :
    driverLine N M (T : Int) =
      "HLS csim done: N=" ++ toString N ++ " M=" ++ toString M ++
        " iters=" ++ toString (T : Int) ++ " checksum=" ++
        fmt6 (sumGrid N M ((specStep N M)^[T] (init_grid M))) ++ "\n" := by
  unfold driverLine
  rw [Int.toNat_natCast T]
  have h2 : sumGrid N M (gridAfter N M T) =
      sumGrid N M ((specStep N M)^[T] (init_grid M)) := by
    apply sumGrid_congr
    intro k hk0 hkNM
    obtain ⟨hdec, hi0, hiN, hj0, hjM⟩ := idx_decomp hM hk0 hkNM
    rw [hdec]
    exact gridAfter_eq_iter N M T (k / M) (k % M) hi0 hiN hj0 hjM
  rw [h2]

theorem claim3_witness :
    (1 : Int) ≤ 2 ∧
    driverLine 2 2 ((1 : Nat) : Int) =
      "HLS csim done: N=" ++ toString (2 : Int) ++ " M=" ++ toString (2 : Int) ++
        " iters=" ++ toString (((1 : Nat) : Int)) ++ " checksum=" ++
        fmt6 (sumGrid 2 2 ((specStep 2 2)^[1] (init_grid 2))) ++ "\n" :=
  ⟨by norm_num, claim3_driver_line 2 2 (by norm_num) (by norm_num) 1⟩

/-- Claim C6: with fewer than 2 positional arguments the driver keeps
`N = 1024` and `M = 1024` together; with at least 2 it takes `N` and `M`
from the first two; `iters` defaults to `10` independently whenever fewer
than 3 arguments are given and is taken from the third otherwise; in
particular a single argument leaves all three at their defaults. -/
theorem claim6_arg_defaults (args : List Int) :
    (args.length < 2 → (parseArgs args).1 = 1024 ∧ (parseArgs args).2.1 = 1024) ∧
    (∀ a b : Int, ∀ rest : List Int, args = a :: b :: rest →
      (parseArgs args).1 = a ∧ (parseArgs args).2.1 = b) ∧
    (args.length < 3 → (parseArgs args).2.2 = 10) ∧
    (∀ a b c : Int, ∀ rest : List Int, args = a :: b :: c :: rest →
      (parseArgs args).2.2 = c) ∧
    (∀ a : Int, args = [a] → parseArgs args = (1024, 1024, 10)) := by
  refine ⟨?_, ?_, ?_, ?_, ?_⟩
  · intro h
    simp only [parseArgs]
    rw [if_neg (by omega)]
    exact ⟨rfl, rfl⟩
  · intro a b rest h
    subst h
    simp only [parseArgs, List.length_cons]
    rw [if_pos (by omega)]
    exact ⟨rfl, rfl⟩
  · intro h
    simp only [parseArgs]
    rw [if_neg (by omega)]
  · intro a b c rest h
    subst h
    simp only [parseArgs, List.length_cons]
    rw [if_pos (by omega)]
    rfl
  · intro a h
    subst h
    simp only [parseArgs, List.length_cons, List.length_nil]
    rw [if_neg (by omega), if_neg (by omega)]

theorem claim6_witness : parseArgs [5] = (1024, 1024, 10) :=
  (claim6_arg_defaults [5]).2.2.2.2 5 rfl

/-- Claim C7: the kernel is a deterministic pure function: any two calls
whose input grids agree on all in-range cells produce outputs that agree
on all in-range cells, regardless of the prior contents of the two output
buffers; and two driver runs on identical argument lists produce
identical output lines. -/
theorem claim7_determinism (N M : Int) (inp1 inp2 out1 out2 : Int → ℚ)
    (hag : ∀ i j : Int, 0 ≤ i → i < N → 0 ≤ j → j < M →
      inp1 (i * M + j) = inp2 (i * M + j)) :
    (∀ i j : Int, 0 ≤ i → i < N → 0 ≤ j → j < M →
      jacobi2d_hls inp1 out1 N M (i * M + j) =
        jacobi2d_hls inp2 out2 N M (i * M + j)) ∧
    (∀ args1 args2 : List Int, args1 = args2 → main args1 = main args2) := by
  constructor
  · intro i j hi0 hiN hj0 hjM
    rw [jacobi_cells inp1 out1 N M i j hi0 hiN hj0 hjM,
      jacobi_cells inp2 out2 N M i j hi0 hiN hj0 hjM]
    exact cellOut_congr inp1 inp2 N M i j hag hi0 hiN hj0 hjM
  · intro a1 a2 h
    rw [h]

theorem claim7_witness :
    jacobi2d_hls (init_grid 2) (fun _ => 0) 2 2 (0 * 2 + 0) =
      jacobi2d_hls (init_grid 2) (fun _ => 5) 2 2 (0 * 2 + 0) :=
  (claim7_determinism 2 2 (init_grid 2) (init_grid 2) (fun _ => 0) (fun _ => 5)
    (fun _ _ _ _ _ _ => rfl)).1 0 0 (by norm_num) (by norm_num) (by norm_num) (by norm_num)

/-- Claim C10: under `N ≥ 1` and `M ≥ 1`, every linear index the kernel
computes at an in-range cell (the written index `i*M + j` and all read
indices, including the four neighbor indices of interior cells) lies in
`[0, N*M)`, and so do all indices written by the driver's grid
initialization; moreover `N ≥ 1` is necessary, since `init_grid` writes
row-0 indices regardless of `N` (witnessed by `M0 = 1`, index `0`,
which is out of bounds when `N = 0`). -/
theorem claim10_index_bounds (N M i j : Int) (hN : 1 ≤ N) (hM : 1 ≤ M)
    (hi0 : 0 ≤ i) (hiN : i < N) (hj0 : 0 ≤ j) (hjM : j < M) :
    (0 ≤ cellWriteIdx M i j ∧ cellWriteIdx M i j < N * M) ∧
    (∀ k ∈ cellReadIdxs N M i j, 0 ≤ k ∧ k < N * M) ∧
    (∀ k ∈ initWriteIdxs M, 0 ≤ k ∧ k < N * M) ∧
    (∃ M0 : Int, 1 ≤ M0 ∧ ∃ k ∈ initWriteIdxs M0, ¬k < 0 * M0) := by
  refine ⟨idx_bounds hi0 hiN hj0 hjM, ?_, ?_, ?_⟩
  · intro k hk
    unfold cellReadIdxs at hk
    by_cases hb : i = 0 ∨ j = 0 ∨ i = N - 1 ∨ j = M - 1
    · rw [if_pos hb] at hk
      simp only [List.mem_singleton] at hk
      subst hk
      exact idx_bounds hi0 hiN hj0 hjM
    · rw [if_neg hb] at hk
      push_neg at hb
      simp only [List.mem_cons, List.mem_singleton, List.not_mem_nil, or_false] at hk
      rcases hk with hk | hk | hk | hk <;> subst hk
      · exact idx_bounds (by omega) (by omega) hj0 hjM
      · exact idx_bounds (by omega) (by omega) hj0 hjM
      · exact idx_bounds hi0 hiN (by omega) (by omega)
      · exact idx_bounds hi0 hiN (by omega) (by omega)
  · intro k hk
    have h1 := initIdxLoop_bounds M.toNat k hk
    have h2 : M ≤ N * M := le_mul_of_one_le_left (by omega) hN
    omega
  · refine ⟨1, by norm_num, 0, ?_, by norm_num⟩
    simp [initWriteIdxs, initIdxLoop]

theorem claim10_witness :
    0 ≤ cellWriteIdx 3 1 1 ∧ cellWriteIdx 3 1 1 < 3 * 3 :=
  (claim10_index_bounds 3 3 1 1 (by norm_num) (by norm_num)
    (by norm_num) (by norm_num) (by norm_num) (by norm_num)).1

/-- Claim C8: concrete scenario `N = 4, M = 4` with input 1.0 on row 0 and
0.0 elsewhere (exactly `init_grid 4`): after one kernel call, cell
`(1,1)` (index 5) and cell `(1,2)` (index 6) equal 0.25, and all twelve
border cells (rows 0 and 3, columns 0 and 3) equal the corresponding
input cells. -/
theorem claim8_scenario_4x4 :
    jacobi2d_hls (init_grid 4) (fun _ => 0) 4 4 5 = 0.25 ∧
    jacobi2d_hls (init_grid 4) (fun _ => 0) 4 4 6 = 0.25 ∧
    jacobi2d_hls (init_grid 4) (fun _ => 0) 4 4 0 = init_grid 4 0 ∧
    jacobi2d_hls (init_grid 4) (fun _ => 0) 4 4 1 = init_grid 4 1 ∧
    jacobi2d_hls (init_grid 4) (fun _ => 0) 4 4 2 = init_grid 4 2 ∧
    jacobi2d_hls (init_grid 4) (fun _ => 0) 4 4 3 = init_grid 4 3 ∧
    jacobi2d_hls (init_grid 4) (fun _ => 0) 4 4 4 = init_grid 4 4 ∧
    jacobi2d_hls (init_grid 4) (fun _ => 0) 4 4 7 = init_grid 4 7 ∧
    jacobi2d_hls (init_grid 4) (fun _ => 0) 4 4 8 = init_grid 4 8 ∧
    jacobi2d_hls (init_grid 4) (fun _ => 0) 4 4 11 = init_grid 4 11 ∧
    jacobi2d_hls (init_grid 4) (fun _ => 0) 4 4 12 = init_grid 4 12 ∧
    jacobi2d_hls (init_grid 4) (fun _ => 0) 4 4 13 = init_grid 4 13 ∧
    jacobi2d_hls (init_grid 4) (fun _ => 0) 4 4 14 = init_grid 4 14 ∧
    jacobi2d_hls (init_grid 4) (fun _ => 0) 4 4 15 = init_grid 4 15 := by
  refine ⟨?_, ?_, ?_, ?_, ?_, ?_, ?_, ?_, ?_, ?_, ?_, ?_, ?_, ?_⟩
  · rw [jacobi_at (init_grid 4) (fun _ => 0) 4 4 1 1 5 (by norm_num) (by norm_num)
      (by norm_num) (by norm_num) (by norm_num)]
    simp only [cellOut]
    rw [if_neg (by norm_num)]
    simp only [init_grid_eq] 
    norm_num
  · rw [jacobi_at (init_grid 4) (fun _ => 0) 4 4 1 2 6 (by norm_num) (by norm_num)
      (by norm_num) (by norm_num) (by norm_num)]
    simp only [cellOut]
    rw [if_neg (by norm_num)]
    simp only [init_grid_eq] 
    norm_num
  · rw [jacobi_at (init_grid 4) (fun _ => 0) 4 4 0 0 0 (by norm_num) (by norm_num)
      (by norm_num) (by norm_num) (by norm_num)]
    simp only [cellOut]
    rw [if_pos (by norm_num)]
    simp only [init_grid_eq] 
    norm_num
  · rw [jacobi_at (init_grid 4) (fun _ => 0) 4 4 0 1 1 (by norm_num) (by norm_num)
      (by norm_num) (by norm_num) (by norm_num)]
    simp only [cellOut]
    rw [if_pos (by norm_num)]
    simp only [init_grid_eq] 
    norm_num
  · rw [jacobi_at (init_grid 4) (fun _ => 0) 4 4 0 2 2 (by norm_num) (by norm_num)
      (by norm_num) (by norm_num) (by norm_num)]
    simp only [cellOut]
    rw [if_pos (by norm_num)]
    simp only [init_grid_eq] 
    norm_num
  · rw [jacobi_at (init_grid 4) (fun _ => 0) 4 4 0 3 3 (by norm_num) (by norm_num)
      (by norm_num) (by norm_num) (by norm_num)]
    simp only [cellOut]
    rw [if_pos (by norm_num)]
    simp only [init_grid_eq] 
    norm_num
  · rw [jacobi_at (init_grid 4) (fun _ => 0) 4 4 1 0 4 (by norm_num) (by norm_num)
      (by norm_num) (by norm_num) (by norm_num)]
    simp only [cellOut]
    rw [if_pos (by norm_num)]
    simp only [init_grid_eq] 
    norm_num
  · rw [jacobi_at (init_grid 4) (fun _ => 0) 4 4 1 3 7 (by norm_num) (by norm_num)
      (by norm_num) (by norm_num) (by norm_num)]
    simp only [cellOut]
    rw [if_pos (by norm_num)]
    simp only [init_grid_eq] 
    norm_num
  · rw [jacobi_at (init_grid 4) (fun _ => 0) 4 4 2 0 8 (by norm_num) (by norm_num)
      (by norm_num) (by norm_num) (by norm_num)]
    simp only [cellOut]
    rw [if_pos (by norm_num)]
    simp only [init_grid_eq] 
    norm_num
  · rw [jacobi_at (init_grid 4) (fun _ => 0) 4 4 2 3 11 (by norm_num) (by norm_num)
      (by norm_num) (by norm_num) (by norm_num)]
    simp only [cellOut]
    rw [if_pos (by norm_num)]
    simp only [init_grid_eq] 
    norm_num
  · rw [jacobi_at (init_grid 4) (fun _ => 0) 4 4 3 0 12 (by norm_num) (by norm_num)
      (by norm_num) (by norm_num) (by norm_num)]
    simp only [cellOut]
    rw [if_pos (by norm_num)]
    simp only [init_grid_eq] 
    norm_num
  · rw [jacobi_at (init_grid 4) (fun _ => 0) 4 4 3 1 13 (by norm_num) (by norm_num)
      (by norm_num) (by norm_num) (by norm_num)]
    simp only [cellOut]
    rw [if_pos (by norm_num)]
    simp only [init_grid_eq] 
    norm_num
  · rw [jacobi_at (init_grid 4) (fun _ => 0) 4 4 3 2 14 (by norm_num) (by norm_num)
      (by norm_num) (by norm_num) (by norm_num)]
    simp only [cellOut]
    rw [if_pos (by norm_num)]
    simp only [init_grid_eq] 
    norm_num
  · rw [jacobi_at (init_grid 4) (fun _ => 0) 4 4 3 3 15 (by norm_num) (by norm_num)
      (by norm_num) (by norm_num) (by norm_num)]
    simp only [cellOut]
    rw [if_pos (by norm_num)]
    simp only [init_grid_eq] 
    norm_num

end Jacobi
